import Mathlib

/-!
Verification development for the cached, format-aware image byte engine
(components/storage and components/image).

The C++ source is shallowly embedded: machine integers become `Nat` (with
`Int` for the signed coordinate/dimension parameters), byte buffers become
`List Nat`, the flash/heap byte pointer of `image::Image` becomes a total
function `Nat → Nat` (the C++ reads are unchecked), and out-parameter
functions return a `ColorN` record.  Signed index arithmetic is modelled on
the non-negative domain that every caller in the claims establishes; there
the C++ truncated division and the conversions to `size_t` agree with the
`Nat` operations used here.
-/

namespace Stockage

/-- `storage::ImageFormat` (storage.h). -/
inductive ImageFormat
| rgb565
| rgb888
| rgba
| grayscale
| binary
deriving DecidableEq, Repr

/-- `storage::ByteOrder` (storage.h). -/
inductive ByteOrder
| little_endian
| big_endian
deriving DecidableEq, Repr

/-- `image::TransparencyType` (image.h). -/
inductive TransparencyType
| opaqueMode
| chromaKey
| alphaChannel
deriving DecidableEq, Repr

/-- `image::ImageType` (image.h). -/
inductive ImageType
| binaryType
| grayscaleType
| rgbType
| rgb565Type
deriving DecidableEq, Repr

/-- A decoded RGBA sample, each channel one byte (`esphome::Color`). -/
structure ColorN where
  r : Nat
  g : Nat
  b : Nat
  a : Nat
deriving DecidableEq, Repr

/-- `SdImageComponent::get_pixel_size` (storage.cpp). -/
def get_pixel_size : ImageFormat → Nat
| .rgb565 => 2
| .rgb888 => 3
| .rgba => 4
| .grayscale => 1
| .binary => 1

/-- `SdImageComponent::get_pixel_offset` (storage.cpp), on the
non-negative coordinate domain. -/
def get_pixel_offset (fmt : ImageFormat) (w x y : Nat) : Nat :=
  if fmt = ImageFormat.binary then (y * w + x) / 8
  else (y * w + x) * get_pixel_size fmt

/-- `SdImageComponent::calculate_expected_size` (storage.cpp). -/
def calculate_expected_size (fmt : ImageFormat) (w h : Nat) : Nat :=
  if fmt = ImageFormat.binary then (w * h + 7) / 8
  else w * h * get_pixel_size fmt

/-- `SdImageComponent::convert_pixel_format` (storage.cpp): decode the
pixel starting at `pd` (the buffer suffix from the pixel offset). -/
def convert_pixel_format (fmt : ImageFormat) (w x y : Nat) (pd : List Nat) : ColorN :=
  match fmt with
  | .rgb565 =>
    let pixel := pd.getD 0 0 ||| (pd.getD 1 0 <<< 8)
    ⟨((pixel >>> 11) &&& 0x1F) <<< 3, ((pixel >>> 5) &&& 0x3F) <<< 2,
      (pixel &&& 0x1F) <<< 3, 255⟩
  | .rgb888 => ⟨pd.getD 0 0, pd.getD 1 0, pd.getD 2 0, 255⟩
  | .rgba => ⟨pd.getD 0 0, pd.getD 1 0, pd.getD 2 0, pd.getD 3 0⟩
  | .grayscale => ⟨pd.getD 0 0, pd.getD 0 0, pd.getD 0 0, 255⟩
  | .binary =>
    let bit_pos := (y * w + x) % 8
    let pixel_on := (pd.getD 0 0 >>> (7 - bit_pos)) &&& 1
    if pixel_on = 1 then ⟨255, 255, 255, 255⟩ else ⟨0, 0, 0, 255⟩

/-- The 2-byte pass of `SdImageComponent::convert_byte_order`:
swap each adjacent byte pair. -/
def swap2 : List Nat → List Nat
| a :: b :: t => b :: a :: swap2 t
| l => l

/-- The 4-byte pass of `SdImageComponent::convert_byte_order`:
reverse each 4-byte group (`swap(i, i+3); swap(i+1, i+2)`). -/
def swap4 : List Nat → List Nat
| a :: b :: c :: d :: t => d :: c :: b :: a :: swap4 t
| l => l

/-- `SdImageComponent::convert_byte_order` (storage.cpp).  The loop body
only acts for pixel sizes 2 and 4; for pixel size 3 it iterates without
touching the data. -/
def convert_byte_order (fmt : ImageFormat) (data : List Nat) : List Nat :=
  let ps := get_pixel_size fmt
  if ps ≤ 1 then data
  else if ps = 2 then swap2 data
  else if ps = 4 then swap4 data
  else data

/-- `SdImageComponent::load_raw_data` (storage.cpp): size-adapt the raw
bytes to the expected size (truncate or zero-pad), then byte-swap for
big-endian multi-byte formats. -/
def load_raw_data (fmt : ImageFormat) (bo : ByteOrder) (w h : Int)
    (raw : List Nat) : Option (List Nat) :=
  if w ≤ 0 ∨ h ≤ 0 then none
  else
    let expected := calculate_expected_size fmt w.toNat h.toNat
    let data :=
      if raw.length ≠ expected then
        if raw.length < expected then raw ++ List.replicate (expected - raw.length) 0
        else raw.take expected
      else raw
    some (if bo = ByteOrder.big_endian ∧ 1 < get_pixel_size fmt then
            convert_byte_order fmt data
          else data)

/-- `SdImageComponent::get_pixel` (storage.cpp, alpha overload). -/
def sd_get_pixel (fmt : ImageFormat) (w h : Int) (is_loaded : Bool)
    (image_data : List Nat) (x y : Int) : ColorN :=
  if x < 0 ∨ x ≥ w ∨ y < 0 ∨ y ≥ h then ⟨0, 0, 0, 0⟩
  else if ¬is_loaded ∨ image_data.isEmpty then ⟨0, 0, 0, 0⟩
  else
    let offset := get_pixel_offset fmt w.toNat x.toNat y.toNat
    let ps := get_pixel_size fmt
    if offset + ps > image_data.length then ⟨0, 0, 0, 0⟩
    else convert_pixel_format fmt w.toNat x.toNat y.toNat (image_data.drop offset)

/-- `SdImageComponent::get_pixel_streamed` (storage.cpp).  `file_data` is
the byte vector returned by `read_file_direct(file_path_)`. -/
def sd_get_pixel_streamed (fmt : ImageFormat) (w : Int) (has_storage : Bool)
    (file_data : List Nat) (x y : Int) : ColorN :=
  if ¬has_storage then ⟨0, 0, 0, 0⟩
  else
    let offset := get_pixel_offset fmt w.toNat x.toNat y.toNat
    let ps := get_pixel_size fmt
    if file_data.length ≤ offset + ps then ⟨0, 0, 0, 0⟩
    else convert_pixel_format fmt w.toNat x.toNat y.toNat (file_data.drop offset)

/-- `SdImageComponent::validate_file_path` (storage.cpp):
`!file_path_.empty() && file_path_[0] == '/'`. -/
def validate_file_path (p : String) : Bool :=
  match p.toList with
  | [] => false
  | c :: _ => c = '/'

/-- `StorageComponent::read_file_direct` (storage.cpp), at the interface
level: the path is handed to the filesystem verbatim; a missing SD
component, an unopenable file or an empty file all yield `{}`. -/
def read_file_direct (sd_ok : Bool) (fs : String → Option (List Nat))
    (path : String) : List Nat :=
  if ¬sd_ok then []
  else
    match fs path with
    | none => []
    | some d => if d.length = 0 then [] else d

/-! ## image::Image (image.cpp) -/

/-- A decoded color with exact rational channels, used for the
grayscale alpha blend of `Image::draw` (the C++ float arithmetic is
modelled exactly in `ℚ`). -/
structure ColorQ where
  r : ℚ
  g : ℚ
  b : ℚ
  a : ℚ
deriving DecidableEq

/-- `image::Image`: dimensions, type, transparency and the byte source
(`progmem_read_byte` over `data_start_`, an unchecked total read). -/
structure CImage where
  width : Int
  height : Int
  itype : ImageType
  transparency : TransparencyType
  data : Nat → Nat

/-- `bpp_` as set by the `Image` constructor (image.cpp). -/
def get_bpp (img : CImage) : Nat :=
  match img.itype with
  | .binaryType => 1
  | .grayscaleType => 8
  | .rgb565Type => if img.transparency = TransparencyType.alphaChannel then 24 else 16
  | .rgbType => if img.transparency = TransparencyType.alphaChannel then 32 else 24

/-- `Image::get_width_stride` (image.h): `(width * bpp + 7) / 8`. -/
def get_width_stride (bpp w : Nat) : Nat := (w * bpp + 7) / 8

/-- `Image::get_binary_pixel_` (image.cpp): rows padded to a byte
boundary via `width_8 = ceil(width / 8) * 8`. -/
def get_binary_pixel_ (img : CImage) (x y : Int) : Bool :=
  let width_8 := ((img.width.toNat + 7) / 8) * 8
  let pos := (x + y * (width_8 : Int)).toNat
  (img.data (pos / 8) &&& (0x80 >>> (pos % 8))) != 0

/-- Byte position of the pixel `(x, y)` in an RGB565 image:
`(x + y * width) * bpp / 8`. -/
def rgb565_pos (img : CImage) (x y : Int) : Nat :=
  ((x + y * img.width).toNat * get_bpp img) / 8

/-- `Image::get_rgb565_pixel_` (image.cpp): the two stored bytes are
combined with `encode_uint16` (first byte is the most significant), each
channel is widened by replicating its own high bits. -/
def get_rgb565_pixel_ (img : CImage) (x y : Int) : ColorN :=
  let i := rgb565_pos img x y
  let rgb565 := (img.data i <<< 8) ||| img.data (i + 1)
  let r := (rgb565 &&& 0xF800) >>> 11
  let g := (rgb565 &&& 0x07E0) >>> 5
  let b := rgb565 &&& 0x001F
  let a :=
    match img.transparency with
    | .alphaChannel => img.data (i + 2)
    | .chromaKey => if rgb565 = 0x0020 then 0 else 0xFF
    | .opaqueMode => 0xFF
  ⟨(r <<< 3) ||| (r >>> 2), (g <<< 2) ||| (g >>> 4), (b <<< 3) ||| (b >>> 2), a⟩

/-- `Image::get_rgb_pixel_` (image.cpp). -/
def get_rgb_pixel_ (img : CImage) (x y : Int) : ColorN :=
  let pos := ((x + y * img.width).toNat * get_bpp img) / 8
  let base : ColorN := ⟨img.data pos, img.data (pos + 1), img.data (pos + 2), 0xFF⟩
  match img.transparency with
  | .chromaKey =>
    if base.g = 1 ∧ base.r = 0 ∧ base.b = 0 then { base with a := 0 } else base
  | .alphaChannel => { base with a := img.data (pos + 3) }
  | .opaqueMode => base

/-- `Image::get_grayscale_pixel_` (image.cpp). -/
def get_grayscale_pixel_ (img : CImage) (x y : Int) : ColorN :=
  let pos := (x + y * img.width).toNat
  let gray := img.data pos
  match img.transparency with
  | .chromaKey => if gray = 1 then ⟨0, 0, 0, 0⟩ else ⟨gray, gray, gray, 0xFF⟩
  | .alphaChannel => ⟨0, 0, 0, gray⟩
  | .opaqueMode => ⟨gray, gray, gray, 0xFF⟩

/-- `Image::get_pixel` (image.cpp). -/
def image_get_pixel (img : CImage) (x y : Int) (color_on color_off : ColorN) : ColorN :=
  if x < 0 ∨ x ≥ img.width ∨ y < 0 ∨ y ≥ img.height then color_off
  else
    match img.itype with
    | .binaryType => if get_binary_pixel_ img x y then color_on else color_off
    | .grayscaleType => get_grayscale_pixel_ img x y
    | .rgb565Type => get_rgb565_pixel_ img x y
    | .rgbType => get_rgb_pixel_ img x y

/-! ## Image::draw (image.cpp): clipping and per-format write lists -/

/-- The display clip rectangle (`display->get_clipping()` when set). -/
structure Clipping where
  x : Int
  y : Int
  x2 : Int
  y2 : Int

/-- The adjusted iteration bounds `(img_x0, img_y0, w, h)` computed at the
top of `Image::draw`. -/
def draw_bounds (width height x y : Int) (clip : Option Clipping) :
    Int × Int × Int × Int :=
  match clip with
  | none => (0, 0, width, height)
  | some c =>
    let img_x0 := if c.x > x then c.x - x else 0
    let img_y0 := if c.y > y then c.y - y else 0
    let w := if width > c.x2 - x then c.x2 - x else width
    let h := if height > c.y2 - y then c.y2 - y else height
    (img_x0, img_y0, w, h)

/-- The integers of `[a, b)`, in order: the index set of a C++
`for (i = a; i < b; i++)` loop. -/
def intRange (a b : Int) : List Int :=
  (List.range (b - a).toNat).map (fun (i : Nat) => a + (i : Int))

/-- The pixel writes emitted by the `IMAGE_TYPE_RGB565` case of
`Image::draw`: draw the decoded color iff its alpha is at least `0x80`. -/
def draw_writes_rgb565 (img : CImage) (x y : Int) (clip : Option Clipping) :
    List (Int × Int × ColorN) :=
  let b := draw_bounds img.width img.height x y clip
  (intRange b.1 b.2.2.1).flatMap fun img_x =>
    (intRange b.2.1 b.2.2.2).filterMap fun img_y =>
      let color := get_rgb565_pixel_ img img_x img_y
      if 0x80 ≤ color.a then some (x + img_x, y + img_y, color) else none

/-- The pixel writes emitted by the `IMAGE_TYPE_RGB` case of
`Image::draw`. -/
def draw_writes_rgb (img : CImage) (x y : Int) (clip : Option Clipping) :
    List (Int × Int × ColorN) :=
  let b := draw_bounds img.width img.height x y clip
  (intRange b.1 b.2.2.1).flatMap fun img_x =>
    (intRange b.2.1 b.2.2.2).filterMap fun img_y =>
      let color := get_rgb_pixel_ img img_x img_y
      if 0x80 ≤ color.a then some (x + img_x, y + img_y, color) else none

/-- The pixel writes emitted by the `IMAGE_TYPE_GRAYSCALE` case of
`Image::draw`: chroma-keyed gray `1` is skipped; in alpha-channel mode the
gray byte blends `color_on` against `color_off`; the written alpha is
always `0xFF`. -/
def draw_writes_grayscale (img : CImage) (x y : Int) (clip : Option Clipping)
    (color_on color_off : ColorN) : List (Int × Int × ColorQ) :=
  let b := draw_bounds img.width img.height x y clip
  (intRange b.1 b.2.2.1).flatMap fun img_x =>
    (intRange b.2.1 b.2.2.2).filterMap fun img_y =>
      let gray := img.data (img_x + img_y * img.width).toNat
      match img.transparency with
      | .chromaKey =>
        if gray = 1 then none
        else some (x + img_x, y + img_y, ⟨gray, gray, gray, 0xFF⟩)
      | .alphaChannel =>
        let onf : ℚ := (gray : ℚ) / 255
        let offf : ℚ := 1 - onf
        some (x + img_x, y + img_y,
          ⟨(color_on.r : ℚ) * onf + (color_off.r : ℚ) * offf,
           (color_on.g : ℚ) * onf + (color_off.g : ℚ) * offf,
           (color_on.b : ℚ) * onf + (color_off.b : ℚ) * offf, 0xFF⟩)
      | .opaqueMode => some (x + img_x, y + img_y, ⟨gray, gray, gray, 0xFF⟩)

/-- The pixel writes emitted by `SdImageComponent::draw` (storage.cpp):
after the loaded/size guards it walks every pixel, skips those whose
decoded alpha is `0`, and writes the decoded r, g, b at non-negative
screen coordinates. -/
def sd_draw_writes (fmt : ImageFormat) (w h : Int) (is_loaded : Bool)
    (image_data : List Nat) (x y : Int) : List (Int × Int × (Nat × Nat × Nat)) :=
  if ¬is_loaded ∨ image_data.isEmpty then []
  else if image_data.length < calculate_expected_size fmt w.toNat h.toNat then []
  else
    (intRange 0 h).flatMap fun img_y =>
      (intRange 0 w).filterMap fun img_x =>
        if 0 ≤ img_x ∧ img_x < w ∧ 0 ≤ img_y ∧ img_y < h then
          let p := sd_get_pixel fmt w h is_loaded image_data img_x img_y
          if p.a = 0 then none
          else if 0 ≤ x + img_x ∧ 0 ≤ y + img_y then
            some (x + img_x, y + img_y, (p.r, p.g, p.b))
          else none
        else none

/-! ## StorageCache (spec §4.3)

The bounded LRU cache of the design is not implemented under `src/`:
`StorageComponent` only stores the configured `cache_size_` and
`read_file_direct` always goes straight to the filesystem.  The cache is
therefore modelled from the spec. -/

/-- Modelled from the spec: a `CacheEntry`
`{key, bytes, size, last_access}` (spec §3); the implementation is
missing from `src/` (only the `cache_size_` configuration exists). -/
structure CacheEntry where
  key : String
  bytes : List Nat
  size : Nat
  last_access : Nat

/-- Modelled from the spec: the `StorageCache` state
`{entries, capacity_bytes, used_bytes}` (spec §3).  Entries are kept in
insertion order, oldest first. -/
structure StorageCache where
  entries : List CacheEntry
  capacity_bytes : Nat
  used_bytes : Nat

/-- Total size of the cached entries. -/
def sumSizes (es : List CacheEntry) : Nat := (es.map (fun e => e.size)).sum

/-- The `StorageCache` invariant (spec §3):
`used_bytes == sum(entries[*].size) ≤ capacity_bytes`. -/
def cache_inv (c : StorageCache) : Prop :=
  c.used_bytes = sumSizes c.entries ∧ c.used_bytes ≤ c.capacity_bytes

/-- Modelled from the spec: evict the entry with the smallest
`last_access`, ties broken by insertion order (oldest wins, spec §4.3
step 4). -/
def evictOne : List CacheEntry → List CacheEntry
| [] => []
| e :: es =>
  if es.all (fun f => decide (e.last_access ≤ f.last_access)) then es
  else e :: evictOne es

theorem length_evictOne : ∀ (e : CacheEntry) (es : List CacheEntry),
    (evictOne (e :: es)).length = es.length := by
  intro e es
  induction es generalizing e with
  | nil => simp [evictOne]
  | cons f t ih =>
    rw [evictOne]
    split
    · rfl
    · simp only [List.length_cons, ih f]

/-- Modelled from the spec: the eviction loop of step 4 —
`while used_bytes + need > capacity_bytes and cache non-empty, evict`. -/
def evictUntilFits (need cap : Nat) : List CacheEntry → List CacheEntry
| [] => []
| e :: t =>
  if sumSizes (e :: t) + need > cap then evictUntilFits need cap (evictOne (e :: t))
  else e :: t
termination_by es => es.length
decreasing_by
  rw [length_evictOne]
  exact Nat.lt_succ_self _

/-- Modelled from the spec: insertion after a successful miss-fetch
(spec §4.3 step 4): data fitting in capacity is inserted after the
eviction loop; oversized data is returned uncached. -/
def insert_on_miss (c : StorageCache) (path : String) (bytes : List Nat)
    (now : Nat) : StorageCache :=
  if bytes.length ≤ c.capacity_bytes then
    let es := evictUntilFits bytes.length c.capacity_bytes c.entries
    let es2 := es ++ [⟨path, bytes, bytes.length, now⟩]
    { c with entries := es2, used_bytes := sumSizes es2 }
  else c

/-- Modelled from the spec: a cache hit bumps `last_access`
(spec §4.3 step 3). -/
def cache_hit_touch (c : StorageCache) (path : String) (now : Nat) : StorageCache :=
  { c with entries :=
      c.entries.map (fun e =>
        if e.key = path then { e with last_access := now } else e) }

/-- Modelled from the spec: explicit removal (`evict(path)`, spec §6). -/
def cache_remove (c : StorageCache) (path : String) : StorageCache :=
  let es := c.entries.filter (fun e => decide (e.key ≠ path))
  { c with entries := es, used_bytes := sumSizes es }

/-- Modelled from the spec: full-cache clear (`clear()`, spec §6). -/
def cache_clear (c : StorageCache) : StorageCache :=
  { c with entries := [], used_bytes := 0 }

theorem sumSizes_nil : sumSizes [] = 0 := rfl

theorem sumSizes_cons (e : CacheEntry) (es : List CacheEntry) :
    sumSizes (e :: es) = e.size + sumSizes es := by
  simp [sumSizes]

theorem sumSizes_append (a b : List CacheEntry) :
    sumSizes (a ++ b) = sumSizes a + sumSizes b := by
  simp [sumSizes]

theorem sumSizes_filter_le (p : CacheEntry → Bool) (es : List CacheEntry) :
    sumSizes (es.filter p) ≤ sumSizes es := by
  induction es with
  | nil => simp
  | cons e t ih =>
    rw [List.filter_cons]
    split
    · rw [sumSizes_cons, sumSizes_cons]
      omega
    · rw [sumSizes_cons]
      omega

theorem sumSizes_map_of_size_eq (f : CacheEntry → CacheEntry)
    (hf : ∀ e, (f e).size = e.size) (es : List CacheEntry) :
    sumSizes (es.map f) = sumSizes es := by
  induction es with
  | nil => rfl
  | cons e t ih => simp [sumSizes_cons, ih, hf]

/-- `evictOne` removes exactly the first entry holding the minimal
`last_access`: the list splits as `l1 ++ e :: l2` where `e` has minimal
`last_access` over the whole list and every entry before it (inserted
earlier) has a strictly larger one. -/
theorem evictOne_spec : ∀ es : List CacheEntry, es ≠ [] →
    ∃ l1 e l2, es = l1 ++ e :: l2 ∧ evictOne es = l1 ++ l2 ∧
      (∀ f ∈ es, e.last_access ≤ f.last_access) ∧
      (∀ f ∈ l1, e.last_access < f.last_access) := by
  intro es
  induction es with
  | nil => intro h; exact absurd rfl h
  | cons e t ih =>
    intro _
    by_cases hall : t.all (fun f => decide (e.last_access ≤ f.last_access))
    · refine ⟨[], e, t, rfl, ?_, ?_, by simp⟩
      · simp [evictOne, hall]
      · intro f hf
        rcases List.mem_cons.mp hf with h | h
        · exact h ▸ Nat.le_refl _
        · simpa using List.all_eq_true.mp hall f h
    · have ht : t ≠ [] := by
        rintro rfl
        simp at hall
      obtain ⟨l1, m, l2, ht_eq, hev, hmin, hbefore⟩ := ih ht
      have hlt : m.last_access < e.last_access := by
        rcases List.all_eq_false.mp (Bool.eq_false_iff.mpr hall) with ⟨g, hg, hgd⟩
        have hge : e.last_access > g.last_access := by
          by_contra hc
          simp [Nat.le_of_not_lt] at hgd
          omega
        exact Nat.lt_of_le_of_lt (hmin g hg) hge
      refine ⟨e :: l1, m, l2, by rw [ht_eq]; rfl, ?_, ?_, ?_⟩
      · have : evictOne (e :: t) = e :: evictOne t := by
          simp [evictOne, hall]
        rw [this, hev]
        rfl
      · intro f hf
        rcases List.mem_cons.mp hf with h | h
        · exact h ▸ Nat.le_of_lt hlt
        · exact hmin f h
      · intro f hf
        rcases List.mem_cons.mp hf with h | h
        · exact h ▸ hlt
        · exact hbefore f h

theorem sumSizes_evictOne_le (es : List CacheEntry) :
    sumSizes (evictOne es) ≤ sumSizes es := by
  rcases es with _ | ⟨e, t⟩
  · exact Nat.le_refl _
  · obtain ⟨l1, m, l2, heq, hev, -, -⟩ := evictOne_spec (e :: t) (by simp)
    rw [hev, heq, sumSizes_append, sumSizes_append, sumSizes_cons]
    omega

/-- After the eviction loop, the remaining entries plus the incoming
data fit in the capacity (provided the data itself fits). -/
theorem evictUntilFits_fits (need cap : Nat) (hn : need ≤ cap) :
    ∀ (n : Nat) (es : List CacheEntry), es.length ≤ n →
      sumSizes (evictUntilFits need cap es) + need ≤ cap := by
  intro n
  induction n with
  | zero =>
    intro es hlen
    have : es = [] := List.length_eq_zero.mp (Nat.le_zero.mp hlen)
    subst this
    simpa [evictUntilFits, sumSizes_nil] using hn
  | succ n ih =>
    intro es hlen
    rcases es with _ | ⟨e, t⟩
    · simpa [evictUntilFits, sumSizes_nil] using hn
    · rw [evictUntilFits]
      split
      · apply ih
        rw [length_evictOne]
        exact Nat.le_of_succ_le_succ hlen
      · omega

/-- C1: after every completed mutating cache operation (insert on
miss-fetch, LRU eviction, explicit removal, clear) the cache state
satisfies `used_bytes = sum of entry sizes ≤ capacity_bytes`; on a
miss-fetch whose data fits in capacity, entries with the smallest
`last_access` are evicted (ties broken by insertion order, oldest first)
until the data fits, after which it is inserted. -/
theorem C1_cache_invariant_and_lru :
    (∀ (c : StorageCache) (path : String) (bytes : List Nat) (now : Nat),
      cache_inv c →
        cache_inv (insert_on_miss c path bytes now) ∧
        cache_inv (cache_hit_touch c path now) ∧
        cache_inv (cache_remove c path) ∧
        cache_inv (cache_clear c)) ∧
    (∀ es : List CacheEntry, es ≠ [] →
      ∃ l1 e l2, es = l1 ++ e :: l2 ∧ evictOne es = l1 ++ l2 ∧
        (∀ f ∈ es, e.last_access ≤ f.last_access) ∧
        (∀ f ∈ l1, e.last_access < f.last_access)) ∧
    (∀ (c : StorageCache) (path : String) (bytes : List Nat) (now : Nat),
      bytes.length ≤ c.capacity_bytes →
        (insert_on_miss c path bytes now).entries =
          evictUntilFits bytes.length c.capacity_bytes c.entries ++
            [⟨path, bytes, bytes.length, now⟩]) := by
  refine ⟨?_, evictOne_spec, ?_⟩
  · intro c path bytes now hinv
    obtain ⟨hsum, hcap⟩ := hinv
    refine ⟨?_, ?_, ?_, ?_⟩
    · unfold insert_on_miss
      split
      · rename_i hfit
        constructor
        · rfl
        · show sumSizes (evictUntilFits bytes.length c.capacity_bytes c.entries ++
            [⟨path, bytes, bytes.length, now⟩]) ≤ c.capacity_bytes
          rw [sumSizes_append, sumSizes_cons, sumSizes_nil]
          have := evictUntilFits_fits bytes.length c.capacity_bytes hfit
            c.entries.length c.entries (Nat.le_refl _)
          have hs : (CacheEntry.mk path bytes bytes.length now).size = bytes.length := rfl
          omega
      · exact ⟨hsum, hcap⟩
    · refine ⟨?_, hcap⟩
      show c.used_bytes = sumSizes (c.entries.map _)
      rw [sumSizes_map_of_size_eq]
      · exact hsum
      · intro e
        split <;> rfl
    · refine ⟨rfl, ?_⟩
      show sumSizes (c.entries.filter _) ≤ c.capacity_bytes
      exact Nat.le_trans (sumSizes_filter_le _ _) (hsum ▸ hcap)
    · exact ⟨rfl, Nat.zero_le _⟩
  · intro c path bytes now hfit
    unfold insert_on_miss
    rw [if_pos hfit]

/-- Witness for C1 at concrete inputs: an empty cache of capacity 100,
a three-byte insertion, and a two-entry list for the eviction order. -/
theorem C1_cache_invariant_and_lru_witness :
    cache_inv (insert_on_miss ⟨[], 100, 0⟩ "/img" [1, 2, 3] 5) ∧
    (∃ l1 e l2,
      [CacheEntry.mk "/a" [1] 1 3, CacheEntry.mk "/b" [2] 2 1] = l1 ++ e :: l2 ∧
      evictOne [CacheEntry.mk "/a" [1] 1 3, CacheEntry.mk "/b" [2] 2 1] = l1 ++ l2 ∧
      (∀ f ∈ [CacheEntry.mk "/a" [1] 1 3, CacheEntry.mk "/b" [2] 2 1],
        e.last_access ≤ f.last_access) ∧
      (∀ f ∈ l1, e.last_access < f.last_access)) ∧
    (insert_on_miss ⟨[], 100, 0⟩ "/img" [1, 2, 3] 5).entries =
      evictUntilFits 3 100 [] ++ [⟨"/img", [1, 2, 3], 3, 5⟩] :=
  ⟨(C1_cache_invariant_and_lru.1 ⟨[], 100, 0⟩ "/img" [1, 2, 3] 5
      ⟨rfl, by decide⟩).1,
   C1_cache_invariant_and_lru.2.1 _ (by simp),
   C1_cache_invariant_and_lru.2.2 ⟨[], 100, 0⟩ "/img" [1, 2, 3] 5 (by decide)⟩

/-! ## Byte-order conversion lemmas -/

theorem swap2_swap2 : ∀ l : List Nat, swap2 (swap2 l) = l
| [] => rfl
| [_] => rfl
| _ :: _ :: t => by rw [swap2, swap2, swap2_swap2 t]

theorem swap4_swap4 : ∀ l : List Nat, swap4 (swap4 l) = l
| [] => rfl
| [_] => rfl
| [_, _] => rfl
| [_, _, _] => rfl
| _ :: _ :: _ :: _ :: t => by rw [swap4, swap4, swap4_swap4 t]

theorem length_swap2 : ∀ l : List Nat, (swap2 l).length = l.length
| [] => rfl
| [_] => rfl
| _ :: _ :: t => by rw [swap2]; simp [length_swap2 t]

theorem length_swap4 : ∀ l : List Nat, (swap4 l).length = l.length
| [] => rfl
| [_] => rfl
| [_, _] => rfl
| [_, _, _] => rfl
| _ :: _ :: _ :: _ :: t => by rw [swap4]; simp [length_swap4 t]

theorem length_convert_byte_order (fmt : ImageFormat) (data : List Nat) :
    (convert_byte_order fmt data).length = data.length := by
  cases fmt <;>
    simp [convert_byte_order, get_pixel_size, length_swap2, length_swap4]

/-- C7: the byte-order conversion is an involution — applying it twice to
any buffer whose length is a multiple of the format's per-pixel byte size
(for formats with at least 2 bytes per pixel) returns the original
buffer. -/
theorem C7_convert_byte_order_involution :
    ∀ (fmt : ImageFormat) (data : List Nat),
      2 ≤ get_pixel_size fmt → data.length % get_pixel_size fmt = 0 →
      convert_byte_order fmt (convert_byte_order fmt data) = data := by
  intro fmt data hps _
  cases fmt
  · simpa [convert_byte_order, get_pixel_size] using swap2_swap2 data
  · simp [convert_byte_order, get_pixel_size]
  · simpa [convert_byte_order, get_pixel_size] using swap4_swap4 data
  · exact absurd hps (by simp [get_pixel_size])
  · exact absurd hps (by simp [get_pixel_size])

/-- Witness for C7: a 4-byte RGBA buffer. -/
theorem C7_convert_byte_order_involution_witness :
    2 ≤ get_pixel_size ImageFormat.rgba ∧
    ([1, 2, 3, 4] : List Nat).length % get_pixel_size ImageFormat.rgba = 0 ∧
    convert_byte_order ImageFormat.rgba
      (convert_byte_order ImageFormat.rgba [1, 2, 3, 4]) = [1, 2, 3, 4] :=
  ⟨by decide, by decide,
   C7_convert_byte_order_involution ImageFormat.rgba [1, 2, 3, 4]
     (by decide) (by decide)⟩

/-- C2: for every coordinate pair outside `[0,width) × [0,height)`, both
pixel readers return their fail-soft fallback — `Image::get_pixel` the
supplied off color, `SdImageComponent::get_pixel` transparent black — and
neither result depends on the underlying pixel buffer. -/
theorem C2_get_pixel_oob :
    (∀ (img : CImage) (x y : Int) (color_on color_off : ColorN),
      (x < 0 ∨ x ≥ img.width ∨ y < 0 ∨ y ≥ img.height) →
        image_get_pixel img x y color_on color_off = color_off ∧
        ∀ d : Nat → Nat,
          image_get_pixel { img with data := d } x y color_on color_off = color_off) ∧
    (∀ (fmt : ImageFormat) (w h : Int) (is_loaded : Bool)
        (image_data : List Nat) (x y : Int),
      (x < 0 ∨ x ≥ w ∨ y < 0 ∨ y ≥ h) →
        sd_get_pixel fmt w h is_loaded image_data x y = ⟨0, 0, 0, 0⟩ ∧
        ∀ d : List Nat, sd_get_pixel fmt w h is_loaded d x y = ⟨0, 0, 0, 0⟩) := by
  constructor
  · intro img x y color_on color_off hoob
    constructor
    · unfold image_get_pixel
      exact if_pos hoob
    · intro d
      unfold image_get_pixel
      exact if_pos hoob
  · intro fmt w h is_loaded image_data x y hoob
    constructor
    · unfold sd_get_pixel
      exact if_pos hoob
    · intro d
      unfold sd_get_pixel
      exact if_pos hoob

/-- Witness for C2 at `x = -1` on a concrete 2×2 RGB565 image. -/
theorem C2_get_pixel_oob_witness :
    image_get_pixel
        ⟨2, 2, ImageType.rgb565Type, TransparencyType.opaqueMode, fun _ => 9⟩
        (-1) 0 ⟨1, 2, 3, 4⟩ ⟨5, 6, 7, 8⟩ = ⟨5, 6, 7, 8⟩ ∧
    sd_get_pixel ImageFormat.rgb565 2 2 true [9, 9, 9, 9, 9, 9, 9, 9] (-1) 0 =
      ⟨0, 0, 0, 0⟩ :=
  ⟨(C2_get_pixel_oob.1
      ⟨2, 2, ImageType.rgb565Type, TransparencyType.opaqueMode, fun _ => 9⟩
      (-1) 0 ⟨1, 2, 3, 4⟩ ⟨5, 6, 7, 8⟩ (Or.inl (by decide))).1,
   (C2_get_pixel_oob.2 ImageFormat.rgb565 2 2 true [9, 9, 9, 9, 9, 9, 9, 9]
      (-1) 0 (Or.inl (by decide))).1⟩

/-- C3 counterexample: for the binary format at width 4 and height 2,
`SdImageComponent::calculate_expected_size` yields 1 byte, not the 2
bytes the claim's byte-aligned-row formula `ceil(width/8) * height`
(which is `get_width_stride 1 4 * 2`) demands. -/
theorem C3_counterexample :
    calculate_expected_size ImageFormat.binary 4 2 = 1 ∧
    calculate_expected_size ImageFormat.binary 4 2 ≠ 2 ∧
    get_width_stride 1 4 * 2 = 2 ∧
    calculate_expected_size ImageFormat.binary 4 2 ≠
      ((4 + 7) / 8) * 2 := by
  refine ⟨?_, ?_, ?_, ?_⟩ <;> decide

/-- C3 amended: `SdImageComponent` packs binary pixels continuously with
no per-row padding — `calculate_expected_size = ceil(width*height/8)`,
and every in-bounds pixel's byte offset lies inside that size — whereas
the `Image` class pads each row to a byte boundary:
`get_width_stride` is `ceil(width*bpp/8)` bytes per row (so
`ceil(width/8) * height` bytes in total for 1 bpp, never less than the
continuously packed size), and `get_binary_pixel_` addresses the byte
`y * stride + x / 8` with a mask depending only on `x % 8` — exactly the
row-padded layout. -/
theorem C3_binary_size_amended :
    (∀ w h : Nat,
      calculate_expected_size ImageFormat.binary w h = (w * h + 7) / 8) ∧
    (∀ w h x y : Nat, x < w → y < h →
      get_pixel_offset ImageFormat.binary w x y <
        calculate_expected_size ImageFormat.binary w h) ∧
    (∀ w h : Nat, get_width_stride 1 w * h = ((w + 7) / 8) * h) ∧
    (∀ w h : Nat,
      calculate_expected_size ImageFormat.binary w h ≤
        get_width_stride 1 w * h) ∧
    (∀ (img : CImage) (x y : Int), 0 ≤ x → x < img.width → 0 ≤ y →
      get_binary_pixel_ img x y =
        ((img.data
            (y.toNat * get_width_stride 1 img.width.toNat + x.toNat / 8) &&&
          (0x80 >>> (x.toNat % 8))) != 0)) := by
  refine ⟨fun w h => by simp [calculate_expected_size], ?_, fun w h => by
    simp [get_width_stride], ?_, ?_⟩
  · intro w h x y hx hy
    simp only [get_pixel_offset, calculate_expected_size, if_true, reduceIte]
    have h1 : y * w + x < w * h := by
      calc y * w + x < (y + 1) * w := by
            rw [Nat.succ_mul]
            omega
        _ ≤ h * w := Nat.mul_le_mul_right w (by omega)
        _ = w * h := Nat.mul_comm h w
    omega
  · intro w h
    have hs : w ≤ 8 * ((w + 7) / 8) := by omega
    simp only [calculate_expected_size, get_width_stride, if_true, reduceIte,
      Nat.mul_one]
    generalize hG : (w + 7) / 8 = s at hs ⊢
    have h1 : w * h ≤ (8 * s) * h := Nat.mul_le_mul_right h hs
    have h2 : (8 * s) * h = 8 * (s * h) := by ring
    omega
  · intro img x y hx hxw hy
    lift x to ℕ using hx with a
    lift y to ℕ using hy with b
    unfold get_binary_pixel_
    dsimp only
    have hstride : get_width_stride 1 img.width.toNat =
        (img.width.toNat + 7) / 8 := by
      simp [get_width_stride]
    set s := (img.width.toNat + 7) / 8 with hsdef
    have hcast : ((a : Int) + (b : Int) * ((s * 8 : Nat) : Int)) =
        ((a + b * (s * 8) : Nat) : Int) := by
      push_cast
      ring
    have hmul : b * (s * 8) = (b * s) * 8 := by ring
    have hdiv : (a + b * (s * 8)) / 8 = b * s + a / 8 := by
      rw [hmul, Nat.add_mul_div_right a (b * s) (by norm_num)]
      omega
    have hmod : (a + b * (s * 8)) % 8 = a % 8 := by
      rw [hmul, Nat.add_mul_mod_self_right]
    rw [hcast, Int.toNat_natCast, hdiv, hmod, hstride]
    simp

/-- Witness for C3 amended at the claim's own 4×2 instance: the last
pixel (3, 1) lands in byte 0 of the 1-byte storage buffer, the
row-padded Image layout needs 2 bytes, and the Image binary reader of a
concrete 4-wide image addresses byte `y * 1 + x / 8`. -/
theorem C3_binary_size_amended_witness :
    get_pixel_offset ImageFormat.binary 4 3 1 <
      calculate_expected_size ImageFormat.binary 4 2 ∧
    calculate_expected_size ImageFormat.binary 4 2 ≤
      get_width_stride 1 4 * 2 ∧
    get_binary_pixel_
        ⟨4, 2, ImageType.binaryType, TransparencyType.opaqueMode,
          fun n => if n = 1 then 0xFF else 0⟩ 3 1 =
      ((if ((1 : Int).toNat * get_width_stride 1 ((4 : Int).toNat) +
            (3 : Int).toNat / 8) = 1 then (0xFF : Nat) else 0) &&&
        (0x80 >>> ((3 : Int).toNat % 8)) != 0) :=
  ⟨C3_binary_size_amended.2.1 4 2 3 1 (by decide) (by decide),
   C3_binary_size_amended.2.2.2.1 4 2,
   C3_binary_size_amended.2.2.2.2
     ⟨4, 2, ImageType.binaryType, TransparencyType.opaqueMode,
       fun n => if n = 1 then 0xFF else 0⟩ 3 1
     (by decide) (by decide) (by decide)⟩

/-- C6 counterexample: `validate_file_path` accepts the traversal path
`"/../etc"`, and `read_file_direct` consults the filesystem with
`"//a//b"` verbatim — the repeated separators are not collapsed to
`"/a/b"`. -/
theorem C6_counterexample :
    validate_file_path "/../etc" = true ∧
    read_file_direct true (fun p => if p = "/a/b" then some [7] else none)
      "//a//b" = [] ∧
    read_file_direct true (fun p => if p = "/a/b" then some [7] else none)
      "/a/b" = [7] := by
  refine ⟨?_, ?_, ?_⟩ <;> decide

/-- C6 amended: no normalization or traversal rejection exists — the only
validation, `validate_file_path`, accepts exactly the paths whose first
character is `'/'` (parent-directory segments included), and
`read_file_direct` hands the path to the filesystem verbatim. -/
theorem C6_no_normalization_amended :
    (∀ p : String, validate_file_path p = true ↔ p.toList.head? = some '/') ∧
    (∀ (fs : String → Option (List Nat)) (p : String) (d : List Nat),
      fs p = some d → d ≠ [] → read_file_direct true fs p = d) ∧
    (∀ (fs : String → Option (List Nat)) (p : String),
      fs p = none → read_file_direct true fs p = []) := by
  refine ⟨?_, ?_, ?_⟩
  · intro p
    rcases h : p.data with _ | ⟨c, t⟩ <;>
      simp [validate_file_path, String.toList, h]
  · intro fs p d hfs hd
    have : d.length ≠ 0 := by
      simpa [List.length_eq_zero] using hd
    simp [read_file_direct, hfs, this]
  · intro fs p hfs
    simp [read_file_direct, hfs]

/-- Witness for C6 amended on concrete paths and a concrete
filesystem. -/
theorem C6_no_normalization_amended_witness :
    validate_file_path "/ok" = true ∧
    read_file_direct true (fun p => if p = "/ok" then some [3, 4] else none)
      "/ok" = [3, 4] :=
  ⟨(C6_no_normalization_amended.1 "/ok").mpr (by decide),
   C6_no_normalization_amended.2.1
     (fun p => if p = "/ok" then some [3, 4] else none) "/ok" [3, 4]
     (by decide) (by decide)⟩

/-- The size-adaptation branch of `load_raw_data` collapses to
truncate-then-zero-pad. -/
theorem load_branch_eq_pad (raw : List Nat) (expected : Nat) :
    (if raw.length ≠ expected then
       if raw.length < expected then
         raw ++ List.replicate (expected - raw.length) 0
       else raw.take expected
     else raw) =
      raw.take expected ++ List.replicate (expected - raw.length) 0 := by
  split
  · split
    · rw [List.take_of_length_le (Nat.le_of_lt ‹_›)]
    · have h0 : expected - raw.length = 0 := by omega
      rw [h0, List.replicate_zero, List.append_nil]
  · rename_i h
    have he : raw.length = expected := by omega
    rw [← he, List.take_length, Nat.sub_self, List.replicate_zero, List.append_nil]

/-- C9 counterexample: with big-endian byte order, a raw RGB565 buffer of
exactly the expected size is byte-swapped in place, not copied
verbatim. -/
theorem C9_counterexample :
    load_raw_data ImageFormat.rgb565 ByteOrder.big_endian 1 1 [1, 2] =
      some [2, 1] ∧
    ([2, 1] : List Nat) ≠ [1, 2] := by
  constructor <;> decide

/-- C9 amended: `load_raw_data` succeeds exactly for positive dimensions;
the loaded buffer always has length `calculate_expected_size()`, and its
content is the raw input truncated to, or zero-padded at the tail to,
that size — additionally byte-swapped in place when the byte order is
big-endian and the pixel size exceeds one byte (so only little-endian or
1-byte-per-pixel data is kept verbatim). -/
theorem C9_load_raw_data_amended :
    (∀ (fmt : ImageFormat) (bo : ByteOrder) (w h : Int) (raw : List Nat),
      (load_raw_data fmt bo w h raw).isSome ↔ (0 < w ∧ 0 < h)) ∧
    (∀ (fmt : ImageFormat) (bo : ByteOrder) (w h : Int) (raw out : List Nat),
      load_raw_data fmt bo w h raw = some out →
      out.length = calculate_expected_size fmt w.toNat h.toNat ∧
      out =
        (if bo = ByteOrder.big_endian ∧ 1 < get_pixel_size fmt then
          convert_byte_order fmt
            (raw.take (calculate_expected_size fmt w.toNat h.toNat) ++
              List.replicate
                (calculate_expected_size fmt w.toNat h.toNat - raw.length) 0)
        else
          raw.take (calculate_expected_size fmt w.toNat h.toNat) ++
            List.replicate
              (calculate_expected_size fmt w.toNat h.toNat - raw.length) 0)) := by
  constructor
  · intro fmt bo w h raw
    unfold load_raw_data
    split
    · simpa using by omega
    · simpa using by omega
  · intro fmt bo w h raw out hload
    unfold load_raw_data at hload
    split at hload
    · exact absurd hload (by simp)
    · rw [Option.some_inj] at hload
      rw [load_branch_eq_pad] at hload
      set expected := calculate_expected_size fmt w.toNat h.toNat with hexp
      have hlen : (raw.take expected ++
          List.replicate (expected - raw.length) 0).length = expected := by
        simp only [List.length_append, List.length_take, List.length_replicate]
        omega
      constructor
      · rw [← hload]
        split
        · rw [length_convert_byte_order, hlen]
        · exact hlen
      · exact hload.symm

/-- Witness for C9 amended: a short grayscale buffer is zero-padded. -/
theorem C9_load_raw_data_amended_witness :
    (load_raw_data ImageFormat.grayscale ByteOrder.little_endian 2 2 [5]).isSome ∧
    ([5, 0, 0, 0] : List Nat).length =
      calculate_expected_size ImageFormat.grayscale 2 2 :=
  ⟨(C9_load_raw_data_amended.1 ImageFormat.grayscale ByteOrder.little_endian
      2 2 [5]).mpr ⟨by decide, by decide⟩,
   (C9_load_raw_data_amended.2 ImageFormat.grayscale ByteOrder.little_endian
     2 2 [5] [5, 0, 0, 0] (by decide)).1⟩

/-- The byte offset of the final pixel plus the pixel size is exactly the
expected buffer size, for every format. -/
theorem last_pixel_offset (fmt : ImageFormat) (n m : Nat)
    (hn : 1 ≤ n) (hm : 1 ≤ m) :
    get_pixel_offset fmt n (n - 1) (m - 1) + get_pixel_size fmt =
      calculate_expected_size fmt n m := by
  have h1 : (m - 1) * n = m * n - n := Nat.sub_one_mul m n
  have h2 : n ≤ m * n := Nat.le_mul_of_pos_left n hm
  have h3 : n * m = m * n := Nat.mul_comm n m
  cases fmt <;>
    simp [get_pixel_offset, get_pixel_size, calculate_expected_size] <;>
    omega

theorem isEmpty_false_of_ne_nil {l : List Nat} (h : l ≠ []) :
    l.isEmpty = false := by
  cases l with
  | nil => exact absurd rfl h
  | cons a t => rfl

/-- C10: with the backing file equal to the loaded buffer, the
materialized and streaming accessors agree on every in-bounds pixel whose
offset plus pixel size is strictly below the buffer length; at the final
pixel of a buffer of exactly the expected size, `get_pixel` still decodes
(its guard admits `offset + pixel_size = size`) while
`get_pixel_streamed` (guard `size > offset + pixel_size`) returns
transparent black. -/
theorem C10_streamed_vs_materialized :
    (∀ (fmt : ImageFormat) (w h : Int) (data : List Nat) (x y : Int),
      0 ≤ x → x < w → 0 ≤ y → y < h → data ≠ [] →
      get_pixel_offset fmt w.toNat x.toNat y.toNat + get_pixel_size fmt <
          data.length →
      sd_get_pixel fmt w h true data x y =
        sd_get_pixel_streamed fmt w true data x y) ∧
    (∀ (fmt : ImageFormat) (w h : Int) (data : List Nat),
      0 < w → 0 < h →
      data.length = calculate_expected_size fmt w.toNat h.toNat →
      sd_get_pixel fmt w h true data (w - 1) (h - 1) =
        convert_pixel_format fmt w.toNat (w - 1).toNat (h - 1).toNat
          (data.drop
            (get_pixel_offset fmt w.toNat (w - 1).toNat (h - 1).toNat)) ∧
      sd_get_pixel_streamed fmt w true data (w - 1) (h - 1) = ⟨0, 0, 0, 0⟩) := by
  constructor
  · intro fmt w h data x y hx hxw hy hyh hne hofs
    have hc1 : ¬(x < 0 ∨ x ≥ w ∨ y < 0 ∨ y ≥ h) := by omega
    have hempty : data.isEmpty = false := isEmpty_false_of_ne_nil hne
    have hgt : ¬(get_pixel_offset fmt w.toNat x.toNat y.toNat +
        get_pixel_size fmt > data.length) := by omega
    have hle : ¬(data.length ≤
        get_pixel_offset fmt w.toNat x.toNat y.toNat + get_pixel_size fmt) := by
      omega
    simp [sd_get_pixel, sd_get_pixel_streamed, hc1, hempty, hgt, hle]
  · intro fmt w h data hw hh hlen
    have hn : 1 ≤ w.toNat := by omega
    have hm : 1 ≤ h.toNat := by omega
    have hoff := last_pixel_offset fmt w.toNat h.toNat hn hm
    have htn : (w - 1).toNat = w.toNat - 1 := by omega
    have htm : (h - 1).toNat = h.toNat - 1 := by omega
    have hwh : 1 ≤ w.toNat * h.toNat := Nat.mul_pos hn hm
    have hexp : 1 ≤ calculate_expected_size fmt w.toNat h.toNat := by
      clear hoff
      cases fmt <;>
        simp [calculate_expected_size, get_pixel_size] <;>
        omega
    have hboundary : get_pixel_offset fmt w.toNat (w - 1).toNat (h - 1).toNat +
        get_pixel_size fmt = data.length := by
      rw [htn, htm, hlen]
      exact hoff
    have hne : data ≠ [] := by
      intro h0
      rw [h0] at hlen
      simp at hlen
      omega
    have hempty : data.isEmpty = false := isEmpty_false_of_ne_nil hne
    have hc1 : ¬(w - 1 < 0 ∨ w - 1 ≥ w ∨ h - 1 < 0 ∨ h - 1 ≥ h) := by omega
    have hcond2 : ¬(¬True ∨ data.isEmpty = true) := by
      simp [hempty]
    have hgt : ¬(get_pixel_offset fmt w.toNat (w - 1).toNat (h - 1).toNat +
        get_pixel_size fmt > data.length) := by omega
    have hle : data.length ≤
        get_pixel_offset fmt w.toNat (w - 1).toNat (h - 1).toNat +
          get_pixel_size fmt := by omega
    constructor
    · simp only [sd_get_pixel]
      rw [if_neg hc1, if_neg hcond2, if_neg hgt]
    · simp only [sd_get_pixel_streamed]
      rw [if_neg (by simp : ¬¬True), if_pos hle]

/-- Witness for C10 on a 2×1 RGB565 image with a 4-byte buffer: the two
accessors agree at pixel (0,0) and diverge at the final pixel (1,0). -/
theorem C10_streamed_vs_materialized_witness :
    sd_get_pixel ImageFormat.rgb565 2 1 true [0, 248, 255, 255] 0 0 =
      sd_get_pixel_streamed ImageFormat.rgb565 2 true [0, 248, 255, 255] 0 0 ∧
    sd_get_pixel ImageFormat.rgb565 2 1 true [0, 248, 255, 255]
        (2 - 1) (1 - 1) =
      convert_pixel_format ImageFormat.rgb565 (2 : Int).toNat
        ((2 : Int) - 1).toNat ((1 : Int) - 1).toNat
        ([0, 248, 255, 255].drop
          (get_pixel_offset ImageFormat.rgb565 (2 : Int).toNat
            ((2 : Int) - 1).toNat ((1 : Int) - 1).toNat)) ∧
    sd_get_pixel_streamed ImageFormat.rgb565 2 true [0, 248, 255, 255]
        (2 - 1) (1 - 1) = ⟨0, 0, 0, 0⟩ :=
  ⟨C10_streamed_vs_materialized.1 ImageFormat.rgb565 2 1 [0, 248, 255, 255]
      0 0 (by decide) (by decide) (by decide) (by decide) (by decide)
      (by decide),
   (C10_streamed_vs_materialized.2 ImageFormat.rgb565 2 1 [0, 248, 255, 255]
      (by decide) (by decide) (by decide)).1,
   (C10_streamed_vs_materialized.2 ImageFormat.rgb565 2 1 [0, 248, 255, 255]
      (by decide) (by decide) (by decide)).2⟩

/-! ## Draw-loop membership lemmas -/

theorem mem_intRange {a b t : Int} : t ∈ intRange a b ↔ a ≤ t ∧ t < b := by
  simp only [intRange, List.mem_map, List.mem_range]
  constructor
  · rintro ⟨i, hi, rfl⟩
    omega
  · intro h
    exact ⟨(t - a).toNat, by omega, by omega⟩

/-- Membership in a doubly-nested draw loop. -/
theorem mem_flatMap_filterMap {α : Type} (f : Int → Int → Option α)
    (x0 w0 y0 h0 : Int) (p : α) :
    (p ∈ (intRange x0 w0).flatMap fun i =>
        (intRange y0 h0).filterMap fun j => f i j) ↔
      ∃ i j, (x0 ≤ i ∧ i < w0) ∧ (y0 ≤ j ∧ j < h0) ∧ f i j = some p := by
  rw [List.mem_flatMap]
  constructor
  · rintro ⟨i, hi, hmem⟩
    rw [List.mem_filterMap] at hmem
    obtain ⟨j, hj, hf⟩ := hmem
    exact ⟨i, j, mem_intRange.mp hi, mem_intRange.mp hj, hf⟩
  · rintro ⟨i, j, hi, hj, hf⟩
    exact ⟨i, mem_intRange.mpr hi,
      List.mem_filterMap.mpr ⟨j, mem_intRange.mpr hj, hf⟩⟩

/-- C8: drawing a grayscale image in alpha-channel mode writes every
in-clip pixel, and the written color is exactly the linear blend
`color_on * (gray/255) + color_off * (1 - gray/255)` per channel (with
output alpha `0xFF`). -/
theorem C8_grayscale_alpha_blend (img : CImage) (x y : Int)
    (clip : Option Clipping) (color_on color_off : ColorN) (ix iy : Int)
    (htr : img.transparency = TransparencyType.alphaChannel)
    (hx : (draw_bounds img.width img.height x y clip).1 ≤ ix)
    (hx2 : ix < (draw_bounds img.width img.height x y clip).2.2.1)
    (hy : (draw_bounds img.width img.height x y clip).2.1 ≤ iy)
    (hy2 : iy < (draw_bounds img.width img.height x y clip).2.2.2) :
    ∀ cq : ColorQ,
      (x + ix, y + iy, cq) ∈ draw_writes_grayscale img x y clip color_on color_off ↔
        cq = ⟨(color_on.r : ℚ) * ((img.data (ix + iy * img.width).toNat : ℚ) / 255) +
                (color_off.r : ℚ) * (1 - (img.data (ix + iy * img.width).toNat : ℚ) / 255),
              (color_on.g : ℚ) * ((img.data (ix + iy * img.width).toNat : ℚ) / 255) +
                (color_off.g : ℚ) * (1 - (img.data (ix + iy * img.width).toNat : ℚ) / 255),
              (color_on.b : ℚ) * ((img.data (ix + iy * img.width).toNat : ℚ) / 255) +
                (color_off.b : ℚ) * (1 - (img.data (ix + iy * img.width).toNat : ℚ) / 255),
              0xFF⟩ := by
  intro cq
  simp only [draw_writes_grayscale, htr]
  rw [mem_flatMap_filterMap]
  constructor
  · rintro ⟨i, j, hi, hj, hf⟩
    rw [Option.some_inj, Prod.mk.injEq, Prod.mk.injEq] at hf
    obtain ⟨hfx, hfy, hfc⟩ := hf
    have hie : i = ix := by omega
    have hje : j = iy := by omega
    subst hie hje
    exact hfc.symm
  · rintro rfl
    exact ⟨ix, iy, ⟨hx, hx2⟩, ⟨hy, hy2⟩, rfl⟩

/-- Witness for C8: a 1×1 gray-51 image blending red onto black gives the
blend value 51/255 = 1/5 of each `color_on` channel. -/
theorem C8_grayscale_alpha_blend_witness :
    (0 + 0, 0 + 0,
      (⟨(255 : ℚ) * ((51 : ℚ) / 255) + (0 : ℚ) * (1 - (51 : ℚ) / 255),
        (0 : ℚ) * ((51 : ℚ) / 255) + (0 : ℚ) * (1 - (51 : ℚ) / 255),
        (0 : ℚ) * ((51 : ℚ) / 255) + (0 : ℚ) * (1 - (51 : ℚ) / 255),
        0xFF⟩ : ColorQ)) ∈
      draw_writes_grayscale
        ⟨1, 1, ImageType.grayscaleType, TransparencyType.alphaChannel,
          fun _ => 51⟩
        0 0 none ⟨255, 0, 0, 255⟩ ⟨0, 0, 0, 255⟩ :=
  (C8_grayscale_alpha_blend
    ⟨1, 1, ImageType.grayscaleType, TransparencyType.alphaChannel, fun _ => 51⟩
    0 0 none ⟨255, 0, 0, 255⟩ ⟨0, 0, 0, 255⟩ 0 0 rfl
    (by decide) (by decide) (by decide) (by decide) _).mpr rfl

theorem mem_draw_writes_rgb565 (img : CImage) (x y : Int)
    (clip : Option Clipping) (ix iy : Int)
    (hx : (draw_bounds img.width img.height x y clip).1 ≤ ix)
    (hx2 : ix < (draw_bounds img.width img.height x y clip).2.2.1)
    (hy : (draw_bounds img.width img.height x y clip).2.1 ≤ iy)
    (hy2 : iy < (draw_bounds img.width img.height x y clip).2.2.2)
    (c : ColorN) :
    (x + ix, y + iy, c) ∈ draw_writes_rgb565 img x y clip ↔
      (c = get_rgb565_pixel_ img ix iy ∧
        0x80 ≤ (get_rgb565_pixel_ img ix iy).a) := by
  simp only [draw_writes_rgb565]
  rw [mem_flatMap_filterMap]
  constructor
  · rintro ⟨i, j, hi, hj, hf⟩
    split_ifs at hf with ha
    · rw [Option.some_inj, Prod.mk.injEq, Prod.mk.injEq] at hf
      obtain ⟨h1, h2, h3⟩ := hf
      have hie : i = ix := by omega
      have hje : j = iy := by omega
      subst hie hje
      exact ⟨h3.symm, ha⟩
  · rintro ⟨rfl, ha⟩
    exact ⟨ix, iy, ⟨hx, hx2⟩, ⟨hy, hy2⟩, by rw [if_pos ha]⟩

theorem mem_draw_writes_rgb (img : CImage) (x y : Int)
    (clip : Option Clipping) (ix iy : Int)
    (hx : (draw_bounds img.width img.height x y clip).1 ≤ ix)
    (hx2 : ix < (draw_bounds img.width img.height x y clip).2.2.1)
    (hy : (draw_bounds img.width img.height x y clip).2.1 ≤ iy)
    (hy2 : iy < (draw_bounds img.width img.height x y clip).2.2.2)
    (c : ColorN) :
    (x + ix, y + iy, c) ∈ draw_writes_rgb img x y clip ↔
      (c = get_rgb_pixel_ img ix iy ∧ 0x80 ≤ (get_rgb_pixel_ img ix iy).a) := by
  simp only [draw_writes_rgb]
  rw [mem_flatMap_filterMap]
  constructor
  · rintro ⟨i, j, hi, hj, hf⟩
    split_ifs at hf with ha
    · rw [Option.some_inj, Prod.mk.injEq, Prod.mk.injEq] at hf
      obtain ⟨h1, h2, h3⟩ := hf
      have hie : i = ix := by omega
      have hje : j = iy := by omega
      subst hie hje
      exact ⟨h3.symm, ha⟩
  · rintro ⟨rfl, ha⟩
    exact ⟨ix, iy, ⟨hx, hx2⟩, ⟨hy, hy2⟩, by rw [if_pos ha]⟩

/-- The storage decoder assigns RGB565 and RGB888 pixels an alpha of
either 0 (an out-of-bounds fallback) or 255 (a decoded pixel). -/
theorem sd_get_pixel_alpha (fmt : ImageFormat)
    (hfmt : fmt = ImageFormat.rgb565 ∨ fmt = ImageFormat.rgb888)
    (w h : Int) (is_loaded : Bool) (data : List Nat) (x y : Int) :
    (sd_get_pixel fmt w h is_loaded data x y).a = 0 ∨
      (sd_get_pixel fmt w h is_loaded data x y).a = 255 := by
  unfold sd_get_pixel
  split_ifs
  · exact Or.inl rfl
  · exact Or.inl rfl
  · dsimp only
    split_ifs
    · exact Or.inl rfl
    · rcases hfmt with rfl | rfl
      · exact Or.inr rfl
      · exact Or.inr rfl

theorem mem_sd_draw_writes (fmt : ImageFormat)
    (hfmt : fmt = ImageFormat.rgb565 ∨ fmt = ImageFormat.rgb888)
    (w h : Int) (data : List Nat) (x y ix iy : Int)
    (hne : data ≠ [])
    (hsz : calculate_expected_size fmt w.toNat h.toNat ≤ data.length)
    (hx : 0 ≤ ix) (hx2 : ix < w) (hy : 0 ≤ iy) (hy2 : iy < h)
    (hsx : 0 ≤ x + ix) (hsy : 0 ≤ y + iy) (rgb : Nat × Nat × Nat) :
    (x + ix, y + iy, rgb) ∈ sd_draw_writes fmt w h true data x y ↔
      (rgb = ((sd_get_pixel fmt w h true data ix iy).r,
              (sd_get_pixel fmt w h true data ix iy).g,
              (sd_get_pixel fmt w h true data ix iy).b) ∧
        0x80 ≤ (sd_get_pixel fmt w h true data ix iy).a) := by
  have hcond1 : ¬(¬True ∨ data.isEmpty = true) := by
    simp [isEmpty_false_of_ne_nil hne]
  have hcond2 : ¬(data.length < calculate_expected_size fmt w.toNat h.toNat) := by
    omega
  simp only [sd_draw_writes]
  rw [if_neg hcond1, if_neg hcond2, mem_flatMap_filterMap]
  constructor
  · rintro ⟨j, i, hj, hi, hf⟩
    by_cases hb1 : 0 ≤ i ∧ i < w ∧ 0 ≤ j ∧ j < h
    · rw [if_pos hb1] at hf
      by_cases hb2 : (sd_get_pixel fmt w h true data i j).a = 0
      · rw [if_pos hb2] at hf
        exact absurd hf (by simp)
      · rw [if_neg hb2] at hf
        by_cases hb3 : 0 ≤ x + i ∧ 0 ≤ y + j
        · rw [if_pos hb3] at hf
          rw [Option.some_inj, Prod.mk.injEq, Prod.mk.injEq] at hf
          obtain ⟨hfx, hfy, h3⟩ := hf
          have hie : i = ix := by omega
          have hje : j = iy := by omega
          rw [hie, hje] at h3 hb2
          refine ⟨h3.symm, ?_⟩
          rcases sd_get_pixel_alpha fmt hfmt w h true data ix iy with h0 | h255
          · exact absurd h0 hb2
          · omega
        · rw [if_neg hb3] at hf
          exact absurd hf (by simp)
    · rw [if_neg hb1] at hf
      exact absurd hf (by simp)
  · rintro ⟨rfl, ha⟩
    refine ⟨iy, ix, ⟨hy, hy2⟩, ⟨hx, hx2⟩, ?_⟩
    rw [if_pos ⟨hx, hx2, hy, hy2⟩]
    have ha0 : ¬((sd_get_pixel fmt w h true data ix iy).a = 0) := by omega
    rw [if_neg ha0, if_pos ⟨hsx, hsy⟩]

/-- C5: when drawing an RGB or RGB565 image, an in-clip pixel is written
exactly when its decoded alpha is at least `0x80`, and then with the
decoded color verbatim (no blending); below `0x80` nothing is written.
`SdImageComponent::draw` shows the same behaviour for its RGB565/RGB888
formats (their decoded alpha is always 255). -/
theorem C5_binary_alpha_draw :
    (∀ (img : CImage) (x y : Int) (clip : Option Clipping) (ix iy : Int),
      (draw_bounds img.width img.height x y clip).1 ≤ ix →
      ix < (draw_bounds img.width img.height x y clip).2.2.1 →
      (draw_bounds img.width img.height x y clip).2.1 ≤ iy →
      iy < (draw_bounds img.width img.height x y clip).2.2.2 →
      ∀ c : ColorN,
        (x + ix, y + iy, c) ∈ draw_writes_rgb565 img x y clip ↔
          (c = get_rgb565_pixel_ img ix iy ∧
            0x80 ≤ (get_rgb565_pixel_ img ix iy).a)) ∧
    (∀ (img : CImage) (x y : Int) (clip : Option Clipping) (ix iy : Int),
      (draw_bounds img.width img.height x y clip).1 ≤ ix →
      ix < (draw_bounds img.width img.height x y clip).2.2.1 →
      (draw_bounds img.width img.height x y clip).2.1 ≤ iy →
      iy < (draw_bounds img.width img.height x y clip).2.2.2 →
      ∀ c : ColorN,
        (x + ix, y + iy, c) ∈ draw_writes_rgb img x y clip ↔
          (c = get_rgb_pixel_ img ix iy ∧
            0x80 ≤ (get_rgb_pixel_ img ix iy).a)) ∧
    (∀ (fmt : ImageFormat),
      (fmt = ImageFormat.rgb565 ∨ fmt = ImageFormat.rgb888) →
      ∀ (w h : Int) (data : List Nat) (x y ix iy : Int),
        data ≠ [] →
        calculate_expected_size fmt w.toNat h.toNat ≤ data.length →
        0 ≤ ix → ix < w → 0 ≤ iy → iy < h →
        0 ≤ x + ix → 0 ≤ y + iy →
        ∀ rgb : Nat × Nat × Nat,
          (x + ix, y + iy, rgb) ∈ sd_draw_writes fmt w h true data x y ↔
            (rgb = ((sd_get_pixel fmt w h true data ix iy).r,
                    (sd_get_pixel fmt w h true data ix iy).g,
                    (sd_get_pixel fmt w h true data ix iy).b) ∧
              0x80 ≤ (sd_get_pixel fmt w h true data ix iy).a)) :=
  ⟨fun img x y clip ix iy hx hx2 hy hy2 c =>
      mem_draw_writes_rgb565 img x y clip ix iy hx hx2 hy hy2 c,
   fun img x y clip ix iy hx hx2 hy hy2 c =>
      mem_draw_writes_rgb img x y clip ix iy hx hx2 hy hy2 c,
   fun fmt hfmt w h data x y ix iy hne hsz hx hx2 hy hy2 hsx hsy rgb =>
      mem_sd_draw_writes fmt hfmt w h data x y ix iy hne hsz hx hx2 hy hy2
        hsx hsy rgb⟩

/-- Witness for C5: a 1×1 opaque RGB565 image (decoded alpha 255) is
written verbatim by `Image::draw`, and a 1×1 RGB565 storage image is
written by `SdImageComponent::draw`. -/
theorem C5_binary_alpha_draw_witness :
    ((0 : Int) + 0, (0 : Int) + 0, (⟨255, 0, 0, 255⟩ : ColorN)) ∈
      draw_writes_rgb565
        ⟨1, 1, ImageType.rgb565Type, TransparencyType.opaqueMode,
          fun n => if n = 0 then 0xF8 else 0⟩ 0 0 none ∧
    ((0 : Int) + 0, (0 : Int) + 0, ((0, 28, 192) : Nat × Nat × Nat)) ∈
      sd_draw_writes ImageFormat.rgb565 1 1 true [248, 0] 0 0 :=
  ⟨(C5_binary_alpha_draw.1
      ⟨1, 1, ImageType.rgb565Type, TransparencyType.opaqueMode,
        fun n => if n = 0 then 0xF8 else 0⟩ 0 0 none 0 0
      (by decide) (by decide) (by decide) (by decide)
      ⟨255, 0, 0, 255⟩).mpr ⟨by decide, by decide⟩,
   (C5_binary_alpha_draw.2.2 ImageFormat.rgb565 (Or.inl rfl) 1 1 [248, 0]
      0 0 0 0 (by decide) (by decide) (by decide) (by decide) (by decide)
      (by decide) (by decide) (by decide) (0, 28, 192)).mpr
      ⟨by decide, by decide⟩⟩

/-- C4 counterexample: the storage decoder expands a fully-saturated
5-bit red channel (`[0x00, 0xF8]` little-endian, packed value `0xF800`)
to 248 by a naive left shift, while the replication formula the claim
demands (`v5 <<< 3 ||| v5 >>> 2`) gives 255 — the value the image-side
decoder produces for the same packed sample. -/
theorem C4_counterexample :
    (convert_pixel_format ImageFormat.rgb565 1 0 0 [0x00, 0xF8]).r = 248 ∧
    ((31 : Nat) <<< 3 ||| (31 : Nat) >>> 2) = 255 ∧
    (convert_pixel_format ImageFormat.rgb565 1 0 0 [0x00, 0xF8]).r ≠
      ((31 : Nat) <<< 3 ||| (31 : Nat) >>> 2) ∧
    (get_rgb565_pixel_
      ⟨1, 1, ImageType.rgb565Type, TransparencyType.opaqueMode,
        fun n => if n = 0 then 0xF8 else 0⟩ 0 0).r = 255 := by
  refine ⟨?_, ?_, ?_, ?_⟩ <;> decide

/-- C4 amended: only `Image::get_rgb565_pixel_` widens RGB565 channels by
replicating their own high bits (`v5<<3 | v5>>2`, `v6<<2 | v6>>4`);
`SdImageComponent::convert_pixel_format` uses naive left shifts alone
(`v5<<3`, `v6<<2`), and the two differ whenever a channel's replicated
high bits are non-zero. -/
theorem C4_rgb565_expansion_amended :
    (∀ (img : CImage) (x y : Int),
      (get_rgb565_pixel_ img x y).r =
        ((((img.data (rgb565_pos img x y) <<< 8) |||
            img.data (rgb565_pos img x y + 1)) &&& 0xF800) >>> 11) <<< 3 |||
          ((((img.data (rgb565_pos img x y) <<< 8) |||
            img.data (rgb565_pos img x y + 1)) &&& 0xF800) >>> 11) >>> 2 ∧
      (get_rgb565_pixel_ img x y).g =
        ((((img.data (rgb565_pos img x y) <<< 8) |||
            img.data (rgb565_pos img x y + 1)) &&& 0x07E0) >>> 5) <<< 2 |||
          ((((img.data (rgb565_pos img x y) <<< 8) |||
            img.data (rgb565_pos img x y + 1)) &&& 0x07E0) >>> 5) >>> 4 ∧
      (get_rgb565_pixel_ img x y).b =
        (((img.data (rgb565_pos img x y) <<< 8) |||
            img.data (rgb565_pos img x y + 1)) &&& 0x001F) <<< 3 |||
          (((img.data (rgb565_pos img x y) <<< 8) |||
            img.data (rgb565_pos img x y + 1)) &&& 0x001F) >>> 2) ∧
    (∀ (w x y : Nat) (pd : List Nat),
      convert_pixel_format ImageFormat.rgb565 w x y pd =
        ⟨(((pd.getD 0 0 ||| (pd.getD 1 0 <<< 8)) >>> 11) &&& 0x1F) <<< 3,
         (((pd.getD 0 0 ||| (pd.getD 1 0 <<< 8)) >>> 5) &&& 0x3F) <<< 2,
         ((pd.getD 0 0 ||| (pd.getD 1 0 <<< 8)) &&& 0x1F) <<< 3, 255⟩) ∧
    (∀ r : Fin 32, 4 ≤ r.val →
      ((r.val <<< 3) ||| (r.val >>> 2)) ≠ r.val <<< 3) :=
  ⟨fun img x y => ⟨rfl, rfl, rfl⟩, fun w x y pd => rfl, by decide⟩

/-- Witness for C4 amended: the divergence at the saturated channel value
31, together with the decoders evaluated on a concrete pixel. -/
theorem C4_rgb565_expansion_amended_witness :
    (((31 : Nat) <<< 3) ||| ((31 : Nat) >>> 2)) ≠ (31 : Nat) <<< 3 ∧
    (get_rgb565_pixel_
      ⟨1, 1, ImageType.rgb565Type, TransparencyType.opaqueMode,
        fun n => if n = 0 then 0xF8 else 0⟩ 0 0).r =
      ((((0xF8 <<< 8) ||| 0) &&& 0xF800) >>> 11) <<< 3 |||
        ((((0xF8 <<< 8) ||| 0) &&& 0xF800) >>> 11) >>> 2 :=
  ⟨C4_rgb565_expansion_amended.2.2 ⟨31, by decide⟩ (by decide),
   by decide⟩

end Stockage
